import Mathlib

/-!
Verification of the YOMOO daily newsletter sender.

The repository has two near-duplicate script variants:
  * `src/unnamed/part_000` (validation + per-message fallback on batch failure), and
  * `src/.github/scripts/send-newsletter.js` (no validation, no fallback).

This development shallowly embeds the delivery engine: the provider is modelled
as a response stream `env : Nat → HttpResp` giving the reply to the n-th HTTP
request of the run, and every network-visible action (batch request, single
request, `sleep` call) is recorded in an event trace.  The ghost event
`Ev.singleCall` marks each entry into `sendSingle`, so "one `sendSingle` call
per message" is expressible.  All recursive definitions use an explicit fuel
argument (initialised to a value that is provably sufficient) so that they are
structurally recursive and kernel-computable.
-/

set_option maxRecDepth 10000

/-- An HTTP response as seen by `fetchJson`: a status code and a body. -/
structure HttpResp where
  status : Nat
  data : String
deriving DecidableEq

/-- Result of `sendBatch`: `{success:true, data}` or `{success:false, status, data}`. -/
inductive BatchResult where
  | ok (data : String)
  | err (status : Nat) (data : String)
deriving DecidableEq

/-- Result of `sendSingle`: `{success:true}` or `{success:false, status}`. -/
inductive SingleResult where
  | ok
  | err (status : Nat)
deriving DecidableEq

/-- A fully rendered email (`{from, to, subject, html}`); `from`/`to` are
renamed `fromAddr`/`toAddr` because both are Lean keywords. -/
structure EmailMessage where
  fromAddr : String
  toAddr : String
  subject : String
  html : String
deriving DecidableEq

/-- A subscriber record (only the `email` field is used by the scripts). -/
structure Subscriber where
  email : String
deriving DecidableEq

/-- Observable events of a run: a batch POST carrying its messages, entry into
`sendSingle` (ghost marker), a single-message POST, and a `sleep(ms)` call. -/
inductive Ev where
  | batchReq (msgs : List EmailMessage)
  | singleCall (m : EmailMessage)
  | singleReq (m : EmailMessage)
  | wait (ms : Nat)
deriving DecidableEq

/-- Network state: number of provider requests made so far (indexing into the
response stream) and the event trace. -/
structure NetSt where
  reqs : Nat
  trace : List Ev
deriving DecidableEq

/-- Retry loop of `sendBatch` from `src/unnamed/part_000` (lines 61-86).
`fuel` counts the remaining loop iterations (`maxRetries - attempt + 1`), so
the JS guard `attempt <= maxRetries` is `fuel > 0` and `attempt < maxRetries`
is `fuel > 1`; the `fuel = 0` case is the post-loop
`return { success: false, status: 429, data: "Max retries exceeded" }`. -/
def sendBatchAux (env : Nat → HttpResp) (emails : List EmailMessage) :
    Nat → Nat → NetSt → BatchResult × NetSt
  | 0, _, st => (BatchResult.err 429 "Max retries exceeded", st)
  | fuel + 1, attempt, st =>
    let resp := env st.reqs
    let st1 : NetSt := ⟨st.reqs + 1, st.trace ++ [Ev.batchReq emails]⟩
    if 200 ≤ resp.status ∧ resp.status < 300 then
      (BatchResult.ok resp.data, st1)
    else if resp.status = 429 ∧ 0 < fuel then
      sendBatchAux env emails fuel (attempt + 1)
        ⟨st1.reqs, st1.trace ++ [Ev.wait (attempt * 3000)]⟩
    else
      (BatchResult.err resp.status resp.data, st1)

/-- `sendBatch(emails, maxRetries)` of `src/unnamed/part_000`; the loop starts
at `attempt = 1`. -/
def sendBatch (env : Nat → HttpResp) (emails : List EmailMessage) (maxRetries : Nat)
    (st : NetSt) : BatchResult × NetSt :=
  sendBatchAux env emails maxRetries 1 st

/-- Retry loop of `sendBatch` from `src/.github/scripts/send-newsletter.js`
(lines 57-82); embedded separately so the two variants can be compared. -/
def sendBatchV2Aux (env : Nat → HttpResp) (emails : List EmailMessage) :
    Nat → Nat → NetSt → BatchResult × NetSt
  | 0, _, st => (BatchResult.err 429 "Max retries exceeded", st)
  | fuel + 1, attempt, st =>
    let resp := env st.reqs
    let st1 : NetSt := ⟨st.reqs + 1, st.trace ++ [Ev.batchReq emails]⟩
    if 200 ≤ resp.status ∧ resp.status < 300 then
      (BatchResult.ok resp.data, st1)
    else if resp.status = 429 ∧ 0 < fuel then
      sendBatchV2Aux env emails fuel (attempt + 1)
        ⟨st1.reqs, st1.trace ++ [Ev.wait (attempt * 3000)]⟩
    else
      (BatchResult.err resp.status resp.data, st1)

/-- `sendBatch(emails, maxRetries)` of `src/.github/scripts/send-newsletter.js`. -/
def sendBatchV2 (env : Nat → HttpResp) (emails : List EmailMessage) (maxRetries : Nat)
    (st : NetSt) : BatchResult × NetSt :=
  sendBatchV2Aux env emails maxRetries 1 st

/-- Retry loop of `sendSingle` from `src/unnamed/part_000` (lines 88-112):
same shape as `sendBatchAux` but the backoff is `attempt * 2000` and the
results carry no body. -/
def sendSingleAux (env : Nat → HttpResp) (m : EmailMessage) :
    Nat → Nat → NetSt → SingleResult × NetSt
  | 0, _, st => (SingleResult.err 429, st)
  | fuel + 1, attempt, st =>
    let resp := env st.reqs
    let st1 : NetSt := ⟨st.reqs + 1, st.trace ++ [Ev.singleReq m]⟩
    if 200 ≤ resp.status ∧ resp.status < 300 then
      (SingleResult.ok, st1)
    else if resp.status = 429 ∧ 0 < fuel then
      sendSingleAux env m fuel (attempt + 1)
        ⟨st1.reqs, st1.trace ++ [Ev.wait (attempt * 2000)]⟩
    else
      (SingleResult.err resp.status, st1)

/-- `sendSingle(email, maxRetries)` of `src/unnamed/part_000`; the ghost event
`Ev.singleCall` marks the function entry. -/
def sendSingle (env : Nat → HttpResp) (m : EmailMessage) (maxRetries : Nat)
    (st : NetSt) : SingleResult × NetSt :=
  sendSingleAux env m maxRetries 1 ⟨st.reqs, st.trace ++ [Ev.singleCall m]⟩

lemma sendBatchAux_step (env : Nat → HttpResp) (emails : List EmailMessage)
    (fuel attempt : Nat) (st : NetSt) :
    sendBatchAux env emails (fuel + 1) attempt st =
      if 200 ≤ (env st.reqs).status ∧ (env st.reqs).status < 300 then
        (BatchResult.ok (env st.reqs).data, ⟨st.reqs + 1, st.trace ++ [Ev.batchReq emails]⟩)
      else if (env st.reqs).status = 429 ∧ 0 < fuel then
        sendBatchAux env emails fuel (attempt + 1)
          ⟨st.reqs + 1, st.trace ++ [Ev.batchReq emails, Ev.wait (attempt * 3000)]⟩
      else
        (BatchResult.err (env st.reqs).status (env st.reqs).data,
          ⟨st.reqs + 1, st.trace ++ [Ev.batchReq emails]⟩) := by
  show (if 200 ≤ (env st.reqs).status ∧ (env st.reqs).status < 300 then _
    else if (env st.reqs).status = 429 ∧ 0 < fuel then
      sendBatchAux env emails fuel (attempt + 1)
        ⟨st.reqs + 1, (st.trace ++ [Ev.batchReq emails]) ++ [Ev.wait (attempt * 3000)]⟩
    else _) = _
  rw [List.append_assoc]
  rfl

lemma sendBatchAux_all429 (env : Nat → HttpResp) (emails : List EmailMessage) :
    ∀ fuel attempt st, 1 ≤ fuel →
      (∀ i, i < fuel → (env (st.reqs + i)).status = 429) →
      (sendBatchAux env emails fuel attempt st).1 =
        BatchResult.err 429 (env (st.reqs + (fuel - 1))).data := by
  intro fuel
  induction fuel with
  | zero => intro attempt st h; omega
  | succ f ih =>
    intro attempt st _ h429
    have h0 := h429 0 (by omega)
    rw [Nat.add_zero] at h0
    cases f with
    | zero =>
      rw [sendBatchAux_step, if_neg (by rw [h0]; decide), if_neg (by rw [h0]; decide)]
      simp [h0]
    | succ g =>
      rw [sendBatchAux_step, if_neg (by rw [h0]; decide),
        if_pos ⟨h0, Nat.succ_pos g⟩]
      have hshift : ∀ i, i < g + 1 → (env ((st.reqs + 1) + i)).status = 429 := by
        intro i hi
        have := h429 (i + 1) (by omega)
        have harith : st.reqs + (i + 1) = st.reqs + 1 + i := by omega
        rwa [harith] at this
      rw [ih (attempt + 1)
        ⟨st.reqs + 1, st.trace ++ [Ev.batchReq emails, Ev.wait (attempt * 3000)]⟩
        (by omega) hshift]
      have harith2 : st.reqs + 1 + (g + 1 - 1) = st.reqs + (g + 1 + 1 - 1) := by omega
      rw [harith2]

lemma sendBatchV2Aux_eq (env : Nat → HttpResp) (emails : List EmailMessage) :
    ∀ fuel attempt st, sendBatchV2Aux env emails fuel attempt st =
      sendBatchAux env emails fuel attempt st := by
  intro fuel
  induction fuel with
  | zero => intro attempt st; rfl
  | succ f ih =>
    intro attempt st
    simp only [sendBatchAux, sendBatchV2Aux]
    split_ifs <;> first | rfl | exact ih _ _

/-- C2 counterexample: with `maxRetries = 3` and the provider answering 429
with body "slow down" on every attempt, `sendBatch` returns the last response
body, not the sentinel "Max retries exceeded" (the post-loop return is dead
code for `maxRetries ≥ 1`). -/
theorem C2_counterexample :
    (sendBatch (fun _ => ⟨429, "slow down"⟩) [] 3 ⟨0, []⟩).1 =
        BatchResult.err 429 "slow down" ∧
      BatchResult.err (429 : Nat) "slow down" ≠
        BatchResult.err 429 "Max retries exceeded" := by
  decide

/-- C2 (amended): when `sendBatch` receives HTTP 429 on every one of its
`maxRetries ≥ 1` attempts, it returns a failure with status 429 whose body is
the body of the last 429 response (the sentinel "Max retries exceeded" line is
unreachable for `maxRetries ≥ 1`). -/
theorem C2_last_429_body (env : Nat → HttpResp) (emails : List EmailMessage)
    (maxRetries : Nat) (st : NetSt) (h1 : 1 ≤ maxRetries)
    (h2 : ∀ i, i < maxRetries → (env (st.reqs + i)).status = 429) :
    (sendBatch env emails maxRetries st).1 =
      BatchResult.err 429 (env (st.reqs + (maxRetries - 1))).data :=
  sendBatchAux_all429 env emails maxRetries 1 st h1 h2

/-- Witness for C2: the amended theorem applied at a concrete response stream. -/
theorem C2_last_429_body_witness :
    (sendBatch (fun n => ⟨429, "body" ++ toString n⟩) [] 3 ⟨0, []⟩).1 =
      BatchResult.err 429 ((fun n => ⟨429, "body" ++ toString n⟩) ((0 : Nat) + (3 - 1)) : HttpResp).data :=
  C2_last_429_body (fun n => ⟨429, "body" ++ toString n⟩) [] 3 ⟨0, []⟩
    (by decide) (by decide)

/-- C4: if the provider answers a batch send with 429, 429, then 2xx and
`maxRetries = 3`, `sendBatch` succeeds with the third response's body, after
exactly two backoff waits of `1 * 3000` and `2 * 3000` milliseconds. -/
theorem C4_retry_backoff (env : Nat → HttpResp) (emails : List EmailMessage) (st : NetSt)
    (h1 : (env st.reqs).status = 429) (h2 : (env (st.reqs + 1)).status = 429)
    (h3 : 200 ≤ (env (st.reqs + 2)).status) (h4 : (env (st.reqs + 2)).status < 300) :
    sendBatch env emails 3 st =
      (BatchResult.ok (env (st.reqs + 2)).data,
       ⟨st.reqs + 3, st.trace ++ [Ev.batchReq emails, Ev.wait 3000, Ev.batchReq emails,
          Ev.wait 6000, Ev.batchReq emails]⟩) := by
  simp only [sendBatch, sendBatchAux, h1, h2]
  norm_num [h3, h4, Nat.add_assoc]

/-- Witness for C4: concrete stream answering 429, 429, 200. -/
theorem C4_retry_backoff_witness :
    sendBatch (fun n => if n < 2 then ⟨429, "rate"⟩ else ⟨200, "done"⟩) [] 3 ⟨0, []⟩ =
      (BatchResult.ok "done",
       ⟨3, [Ev.batchReq [], Ev.wait 3000, Ev.batchReq [], Ev.wait 6000, Ev.batchReq []]⟩) :=
  (C4_retry_backoff (fun n => if n < 2 then ⟨429, "rate"⟩ else ⟨200, "done"⟩) [] ⟨0, []⟩
    (by decide) (by decide) (by decide) (by decide)).trans (by decide)

/-- C10: the `sendBatch` implementations of the two source variants are
extensionally equal: same requests, same waits, same result, for every
message list, retry bound, provider response stream and starting state. -/
theorem C10_sendBatch_variants_agree (env : Nat → HttpResp) (emails : List EmailMessage)
    (maxRetries : Nat) (st : NetSt) :
    sendBatchV2 env emails maxRetries st = sendBatch env emails maxRetries st :=
  sendBatchV2Aux_eq env emails maxRetries 1 st

/-- `BATCH_SIZE = 50`. -/
def BATCH_SIZE : Nat := 50

/-- Batching loop `for (i = 0; i < n; i += BATCH_SIZE) slice(i, i + BATCH_SIZE)`
(both variants), as a fueled recursion: each iteration takes one slice of at
most `BATCH_SIZE` messages.  The fuel is initialised to `l.length`, which is
provably sufficient; the `0, l` fallback keeps the concatenation property. -/
def chunksAux {α : Type} : Nat → List α → List (List α)
  | _, [] => []
  | 0, l => [l]
  | fuel + 1, l@(_ :: _) => l.take BATCH_SIZE :: chunksAux fuel (l.drop BATCH_SIZE)

/-- The batches produced by the delivery loop, in processing order. -/
def chunks {α : Type} (l : List α) : List (List α) := chunksAux l.length l

lemma chunksAux_flatten {α : Type} : ∀ (fuel : Nat) (l : List α),
    (chunksAux fuel l).flatten = l := by
  intro fuel
  induction fuel with
  | zero => intro l; cases l <;> simp [chunksAux]
  | succ f ih =>
    intro l
    cases l with
    | nil => simp [chunksAux]
    | cons a t => simp [chunksAux, ih]

lemma chunks_flatten {α : Type} (l : List α) : (chunks l).flatten = l :=
  chunksAux_flatten l.length l

lemma chunksAux_length {α : Type} : ∀ (fuel : Nat) (l : List α), l.length ≤ fuel →
    (chunksAux fuel l).length = (l.length + (BATCH_SIZE - 1)) / BATCH_SIZE := by
  intro fuel
  induction fuel with
  | zero =>
    intro l hl
    have : l = [] := List.length_eq_zero.mp (by omega)
    subst this; simp [chunksAux, BATCH_SIZE]
  | succ f ih =>
    intro l hl
    cases l with
    | nil => simp [chunksAux, BATCH_SIZE]
    | cons a t =>
      have hdrop : (List.drop BATCH_SIZE (a :: t)).length ≤ f := by
        simp [BATCH_SIZE] at hl ⊢; omega
      have goalarith : (t.length + 1 - 50 + 49) / 50 + 1 = (t.length + 1 + 49) / 50 := by
        rcases le_or_lt (t.length + 1) 50 with hle | hgt
        · have h1 : t.length + 1 - 50 = 0 := by omega
          have h2 : (t.length + 1 + 49) / 50 = 1 :=
            Nat.div_eq_of_lt_le (by omega) (by omega)
          rw [h1, h2]
        · have h1 : t.length + 1 - 50 + 49 = t.length := by omega
          have h2 : t.length + 1 + 49 = t.length + 50 := by omega
          rw [h1, h2, Nat.add_div_right _ (by norm_num)]
      rw [show chunksAux (f + 1) (a :: t) =
            (a :: t).take BATCH_SIZE :: chunksAux f ((a :: t).drop BATCH_SIZE) from rfl,
        List.length_cons, ih _ hdrop, List.length_drop, List.length_cons]
      exact goalarith

lemma chunks_length {α : Type} (l : List α) :
    (chunks l).length = (l.length + (BATCH_SIZE - 1)) / BATCH_SIZE :=
  chunksAux_length l.length l le_rfl

lemma chunksAux_size_le {α : Type} : ∀ (fuel : Nat) (l : List α), l.length ≤ fuel →
    ∀ b ∈ chunksAux fuel l, b.length ≤ BATCH_SIZE := by
  intro fuel
  induction fuel with
  | zero =>
    intro l hl
    have : l = [] := List.length_eq_zero.mp (by omega)
    subst this; simp [chunksAux]
  | succ f ih =>
    intro l hl
    cases l with
    | nil => simp [chunksAux]
    | cons a t =>
      intro b hb
      rcases List.mem_cons.mp hb with hb | hb
      · subst hb; simp [List.length_take_le]
      · exact ih _ (by simp [BATCH_SIZE] at hl ⊢; omega) b hb

lemma chunks_size_le {α : Type} (l : List α) : ∀ b ∈ chunks l, b.length ≤ BATCH_SIZE :=
  chunksAux_size_le l.length l le_rfl

/-- Per-message fallback of `src/unnamed/part_000` `main` (lines 177-187): for
each message of a failed batch, one `sendSingle` call, counter update by its
result, then `sleep(600)` unconditionally. -/
def fallback (env : Nat → HttpResp) :
    List EmailMessage → Nat → Nat → NetSt → Nat × Nat × NetSt
  | [], sent, failed, st => (sent, failed, st)
  | e :: rest, sent, failed, st =>
    let p := sendSingle env e 3 st
    match p.1 with
    | SingleResult.ok =>
        fallback env rest (sent + 1) failed ⟨p.2.reqs, p.2.trace ++ [Ev.wait 600]⟩
    | SingleResult.err _ =>
        fallback env rest sent (failed + 1) ⟨p.2.reqs, p.2.trace ++ [Ev.wait 600]⟩

/-- The sequence of `sendSingle` results the fallback loop observes (same
state threading as `fallback`, including the request consumed and the 600ms
sleep after each message). -/
def fallbackResults (env : Nat → HttpResp) : List EmailMessage → NetSt → List SingleResult
  | [], _ => []
  | e :: rest, st =>
    let p := sendSingle env e 3 st
    p.1 :: fallbackResults env rest ⟨p.2.reqs, p.2.trace ++ [Ev.wait 600]⟩

/-- The `sleep(1000)` between batches: performed iff further batches remain
(`i + BATCH_SIZE < allEmails.length` in the source). -/
def interWait (rest : List (List EmailMessage)) (st : NetSt) : NetSt :=
  if rest = [] then st else ⟨st.reqs, st.trace ++ [Ev.wait 1000]⟩

/-- Delivery loop of `src/unnamed/part_000` `main` (lines 161-193), iterating
over the batches: `sendBatch` (with default `maxRetries = 3`); on success the
whole batch is counted sent, on failure the per-message fallback runs; then
the inter-batch pause. -/
def deliverChunks (env : Nat → HttpResp) :
    List (List EmailMessage) → Nat → Nat → NetSt → Nat × Nat × NetSt
  | [], sent, failed, st => (sent, failed, st)
  | batch :: rest, sent, failed, st =>
    let p := sendBatch env batch 3 st
    match p.1 with
    | BatchResult.ok _ =>
        deliverChunks env rest (sent + batch.length) failed (interWait rest p.2)
    | BatchResult.err _ _ =>
        let q := fallback env batch sent failed p.2
        deliverChunks env rest q.1 q.2.1 (interWait rest q.2.2)

/-- The whole delivery phase: batch the messages and run the loop with
counters starting at `sent = 0, failed = 0`. -/
def deliver (env : Nat → HttpResp) (msgs : List EmailMessage) (st : NetSt) :
    Nat × Nat × NetSt :=
  deliverChunks env (chunks msgs) 0 0 st

lemma fallback_counts (env : Nat → HttpResp) :
    ∀ (ms : List EmailMessage) (sent failed : Nat) (st : NetSt),
      (fallback env ms sent failed st).1 + (fallback env ms sent failed st).2.1 =
        sent + failed + ms.length := by
  intro ms
  induction ms with
  | nil => intro sent failed st; simp [fallback]
  | cons e rest ih =>
    intro sent failed st
    cases h : (sendSingle env e 3 st).1 with
    | ok => simp only [fallback, h]; rw [ih, List.length_cons]; omega
    | err s => simp only [fallback, h]; rw [ih, List.length_cons]; omega

lemma deliverChunks_counts (env : Nat → HttpResp) :
    ∀ (cs : List (List EmailMessage)) (sent failed : Nat) (st : NetSt),
      (deliverChunks env cs sent failed st).1 + (deliverChunks env cs sent failed st).2.1 =
        sent + failed + (cs.map List.length).sum := by
  intro cs
  induction cs with
  | nil => intro sent failed st; simp [deliverChunks]
  | cons batch rest ih =>
    intro sent failed st
    cases h : (sendBatch env batch 3 st).1 with
    | ok d => simp only [deliverChunks, h]; rw [ih]; simp; omega
    | err s d =>
      simp only [deliverChunks, h]
      rw [ih]
      have hf := fallback_counts env batch sent failed (sendBatch env batch 3 st).2
      simp only [List.map_cons, List.sum_cons]
      omega

/-- A fixed message for concrete witnesses. -/
def msg0 : EmailMessage := ⟨"", "", "", ""⟩

/-- C3: the delivery loop partitions any message list into exactly
`ceil(n / 50)` batches, each of size at most 50, whose concatenation in
processing order is the original list in its original order. -/
theorem C3_batching_partition (l : List EmailMessage) :
    (chunks l).length = (l.length + (BATCH_SIZE - 1)) / BATCH_SIZE ∧
      (∀ b ∈ chunks l, b.length ≤ BATCH_SIZE) ∧
      (chunks l).flatten = l :=
  ⟨chunks_length l, chunks_size_le l, chunks_flatten l⟩

/-- Witness for C3, at a concrete 120-message list: 3 batches, the first of
size 50 (at most 50), concatenation restores the list. -/
theorem C3_batching_partition_witness :
    (chunks (List.replicate 120 msg0)).length = (120 + (BATCH_SIZE - 1)) / BATCH_SIZE ∧
      (List.replicate 50 msg0).length ≤ BATCH_SIZE ∧
      (chunks (List.replicate 120 msg0)).flatten = List.replicate 120 msg0 := by
  obtain ⟨h1, h2, h3⟩ := C3_batching_partition (List.replicate 120 msg0)
  exact ⟨by simpa using h1, h2 (List.replicate 50 msg0) (by decide), h3⟩

/-- C9: at the end of the delivery loop, `sent + failed` equals the number of
messages: each message is counted exactly once, whichever of the three paths
(batch success, fallback success, fallback failure) it takes. -/
theorem C9_counters_partition (env : Nat → HttpResp) (msgs : List EmailMessage) (st : NetSt) :
    (deliver env msgs st).1 + (deliver env msgs st).2.1 = msgs.length := by
  have h := deliverChunks_counts env (chunks msgs) 0 0 st
  have hlen : ((chunks msgs).map List.length).sum = msgs.length := by
    rw [← List.length_flatten, chunks_flatten]
  simpa [deliver, hlen] using h

/-- Events of interest for the fallback pattern: `sendSingle` entries and the
fixed 600ms pauses (no other event of the run is a 600ms wait: batch backoffs
are multiples of 3000, single backoffs multiples of 2000, the inter-batch
pause is 1000). -/
def isCallOr600 : Ev → Bool
  | Ev.singleCall _ => true
  | Ev.wait ms => ms == 600
  | _ => false

/-- Recognise the ghost `sendSingle`-entry events. -/
def isCall : Ev → Bool
  | Ev.singleCall _ => true
  | _ => false

/-- Recognise a successful single-send result. -/
def isOkR : SingleResult → Bool
  | SingleResult.ok => true
  | SingleResult.err _ => false

lemma sendSingleAux_trace (env : Nat → HttpResp) (m : EmailMessage) :
    ∀ fuel attempt st, 1 ≤ attempt →
      ∃ seg, (sendSingleAux env m fuel attempt st).2.trace = st.trace ++ seg ∧
        seg.filter isCallOr600 = [] := by
  intro fuel
  induction fuel with
  | zero => intro attempt st _; exact ⟨[], by simp [sendSingleAux], rfl⟩
  | succ f ih =>
    intro attempt st ha
    by_cases h1 : 200 ≤ (env st.reqs).status ∧ (env st.reqs).status < 300
    · refine ⟨[Ev.singleReq m], ?_, rfl⟩
      simp [sendSingleAux, h1]
    · by_cases h2 : (env st.reqs).status = 429 ∧ 0 < f
      · obtain ⟨seg, hseg, hfil⟩ := ih (attempt + 1)
          ⟨st.reqs + 1, (st.trace ++ [Ev.singleReq m]) ++ [Ev.wait (attempt * 2000)]⟩
          (by omega)
        refine ⟨[Ev.singleReq m, Ev.wait (attempt * 2000)] ++ seg, ?_, ?_⟩
        · simp only [sendSingleAux, if_neg h1, if_pos h2]
          simp only at hseg
          rw [hseg]
          simp
        · have h600 : (attempt * 2000 == 600) = false := by
            simp only [beq_eq_false_iff_ne]
            omega
          simp [List.filter_append, isCallOr600, hfil, h600]
      · refine ⟨[Ev.singleReq m], ?_, rfl⟩
        simp [sendSingleAux, if_neg h1, if_neg h2]

lemma sendSingle_trace (env : Nat → HttpResp) (m : EmailMessage) (st : NetSt) :
    ∃ seg, (sendSingle env m 3 st).2.trace = st.trace ++ (Ev.singleCall m :: seg) ∧
      seg.filter isCallOr600 = [] := by
  obtain ⟨seg, hseg, hfil⟩ := sendSingleAux_trace env m 3 1
    ⟨st.reqs, st.trace ++ [Ev.singleCall m]⟩ (by omega)
  refine ⟨seg, ?_, hfil⟩
  simp only [sendSingle]
  simp only at hseg
  rw [hseg]
  simp

lemma fallback_trace (env : Nat → HttpResp) :
    ∀ (ms : List EmailMessage) (sent failed : Nat) (st : NetSt),
      ∃ seg, (fallback env ms sent failed st).2.2.trace = st.trace ++ seg ∧
        seg.filter isCallOr600 =
          (ms.map (fun m => [Ev.singleCall m, Ev.wait 600])).flatten := by
  intro ms
  induction ms with
  | nil => intro sent failed st; exact ⟨[], by simp [fallback], by simp⟩
  | cons e rest ih =>
    intro sent failed st
    obtain ⟨seg1, hseg1, hfil1⟩ := sendSingle_trace env e st
    have key : ∀ sent' failed',
        ∃ seg, (fallback env rest sent' failed'
            ⟨(sendSingle env e 3 st).2.reqs,
             (sendSingle env e 3 st).2.trace ++ [Ev.wait 600]⟩).2.2.trace =
          st.trace ++ ((Ev.singleCall e :: seg1 ++ [Ev.wait 600]) ++ seg) ∧
          seg.filter isCallOr600 = (rest.map (fun m => [Ev.singleCall m, Ev.wait 600])).flatten := by
      intro sent' failed'
      obtain ⟨seg2, hseg2, hfil2⟩ := ih sent' failed'
        ⟨(sendSingle env e 3 st).2.reqs, (sendSingle env e 3 st).2.trace ++ [Ev.wait 600]⟩
      refine ⟨seg2, ?_, hfil2⟩
      simp only at hseg2
      rw [hseg2, hseg1]
      simp
    cases h : (sendSingle env e 3 st).1 with
    | ok =>
      obtain ⟨seg, hseg, hfil⟩ := key (sent + 1) failed
      refine ⟨(Ev.singleCall e :: seg1 ++ [Ev.wait 600]) ++ seg, ?_, ?_⟩
      · simp only [fallback, h]
        exact hseg
      · simp [List.filter_append, isCallOr600, hfil1, hfil, List.filter_cons]
    | err s =>
      obtain ⟨seg, hseg, hfil⟩ := key sent (failed + 1)
      refine ⟨(Ev.singleCall e :: seg1 ++ [Ev.wait 600]) ++ seg, ?_, ?_⟩
      · simp only [fallback, h]
        exact hseg
      · simp [List.filter_append, isCallOr600, hfil1, hfil, List.filter_cons]

lemma fallback_counters (env : Nat → HttpResp) :
    ∀ (ms : List EmailMessage) (sent failed : Nat) (st : NetSt),
      (fallback env ms sent failed st).1 =
          sent + (fallbackResults env ms st).countP isOkR ∧
        (fallback env ms sent failed st).2.1 =
          failed + (fallbackResults env ms st).countP (fun r => !(isOkR r)) := by
  intro ms
  induction ms with
  | nil => intro sent failed st; simp [fallback, fallbackResults]
  | cons e rest ih =>
    intro sent failed st
    cases h : (sendSingle env e 3 st).1 with
    | ok =>
      simp only [fallback, fallbackResults, h]
      obtain ⟨ih1, ih2⟩ := ih (sent + 1) failed
        ⟨(sendSingle env e 3 st).2.reqs, (sendSingle env e 3 st).2.trace ++ [Ev.wait 600]⟩
      constructor
      · rw [ih1, List.countP_cons]
        simp [isOkR]
        omega
      · rw [ih2, List.countP_cons]
        simp [isOkR]
    | err s =>
      simp only [fallback, fallbackResults, h]
      obtain ⟨ih1, ih2⟩ := ih sent (failed + 1)
        ⟨(sendSingle env e 3 st).2.reqs, (sendSingle env e 3 st).2.trace ++ [Ev.wait 600]⟩
      constructor
      · rw [ih1, List.countP_cons]
        simp [isOkR]
      · rw [ih2, List.countP_cons]
        simp [isOkR]
        omega

lemma countCalls_flatten : ∀ ms : List EmailMessage,
    ((ms.map (fun m => [Ev.singleCall m, Ev.wait 600])).flatten).countP isCall = ms.length := by
  intro ms
  induction ms with
  | nil => simp
  | cons e rest ih => simp [List.countP_cons, isCall, ih]

/-- C1: when a batch's `sendBatch` fails, the orchestrator falls back to
per-message delivery.  Conjuncts: (1) on a failed batch the loop continues
with the fallback's counters and state, other batches unaffected; (2) the
fallback's trace contribution, filtered to `sendSingle` entries and 600ms
waits, is exactly one entry followed by one 600ms wait per message of the
batch, in order (hence exactly one `sendSingle` call per message, each
followed by the fixed pause regardless of outcome); (3) each successful
single send increments `sent` and each failed one increments `failed`;
(4) the 120-subscriber scenario: batches of 50/50/20, batch 2 failing with
500 yields exactly 50 individual sends with a 600ms wait after each, batches
1 and 3 delivered as batches. -/
theorem C1_batch_failure_fallback :
    (∀ (env : Nat → HttpResp) (batch : List EmailMessage)
        (rest : List (List EmailMessage)) (sent failed : Nat) (st : NetSt)
        (s : Nat) (d : String),
        (sendBatch env batch 3 st).1 = BatchResult.err s d →
        deliverChunks env (batch :: rest) sent failed st =
          deliverChunks env rest
            (fallback env batch sent failed (sendBatch env batch 3 st).2).1
            (fallback env batch sent failed (sendBatch env batch 3 st).2).2.1
            (interWait rest
              (fallback env batch sent failed (sendBatch env batch 3 st).2).2.2)) ∧
    (∀ (env : Nat → HttpResp) (ms : List EmailMessage) (sent failed : Nat) (st : NetSt),
        ∃ seg, (fallback env ms sent failed st).2.2.trace = st.trace ++ seg ∧
          seg.filter isCallOr600 =
            (ms.map (fun m => [Ev.singleCall m, Ev.wait 600])).flatten ∧
          seg.countP isCall = ms.length) ∧
    (∀ (env : Nat → HttpResp) (ms : List EmailMessage) (sent failed : Nat) (st : NetSt),
        (fallback env ms sent failed st).1 =
            sent + (fallbackResults env ms st).countP isOkR ∧
          (fallback env ms sent failed st).2.1 =
            failed + (fallbackResults env ms st).countP (fun r => !(isOkR r))) ∧
    deliver (fun n => if n == 1 then ⟨500, "err"⟩ else ⟨200, "ok"⟩)
        (List.replicate 120 msg0) ⟨0, []⟩ =
      (120, 0,
        ⟨53, [Ev.batchReq (List.replicate 50 msg0), Ev.wait 1000,
              Ev.batchReq (List.replicate 50 msg0)] ++
          (List.replicate 50 [Ev.singleCall msg0, Ev.singleReq msg0, Ev.wait 600]).flatten ++
          [Ev.wait 1000, Ev.batchReq (List.replicate 20 msg0)]⟩) := by
  refine ⟨?_, ?_, ?_, ?_⟩
  · intro env batch rest sent failed st s d h
    simp only [deliverChunks, h]
  · intro env ms sent failed st
    obtain ⟨seg, hseg, hfil⟩ := fallback_trace env ms sent failed st
    refine ⟨seg, hseg, hfil, ?_⟩
    have h1 : seg.countP isCall = (seg.filter isCallOr600).countP isCall := by
      rw [List.countP_filter]
      congr 1
      funext e
      cases e <;> simp [isCall, isCallOr600]
    rw [h1, hfil, countCalls_flatten]
  · intro env ms sent failed st
    exact fallback_counters env ms sent failed st
  · decide

/-- Witness for C1: the failed-batch dispatch applied at a one-message batch
with a provider that always answers 500. -/
theorem C1_batch_failure_fallback_witness :
    deliverChunks (fun _ => ⟨500, "e"⟩) [[msg0]] 0 0 ⟨0, []⟩ =
      deliverChunks (fun _ => ⟨500, "e"⟩) []
        (fallback (fun _ => ⟨500, "e"⟩) [msg0] 0 0
          (sendBatch (fun _ => ⟨500, "e"⟩) [msg0] 3 ⟨0, []⟩).2).1
        (fallback (fun _ => ⟨500, "e"⟩) [msg0] 0 0
          (sendBatch (fun _ => ⟨500, "e"⟩) [msg0] 3 ⟨0, []⟩).2).2.1
        (interWait []
          (fallback (fun _ => ⟨500, "e"⟩) [msg0] 0 0
            (sendBatch (fun _ => ⟨500, "e"⟩) [msg0] 3 ⟨0, []⟩).2).2.2) :=
  C1_batch_failure_fallback.1 (fun _ => ⟨500, "e"⟩) [msg0] [] 0 0 ⟨0, []⟩ 500 "e" (by decide)

/-- JS `String.prototype.split` with a one-character separator, as a fueled
recursion (each step consumes the text up to and including one separator).
`"a@b@c".split("@") = ["a","b","c"]`, `"a@".split("@") = ["a",""]`,
`"".split("@") = [""]`. -/
def jsSplitAux (sep : Char) : Nat → List Char → List (List Char)
  | 0, s => [s]
  | fuel + 1, s =>
    match s.dropWhile (fun c => !(c == sep)) with
    | [] => [s.takeWhile (fun c => !(c == sep))]
    | _ :: rest => s.takeWhile (fun c => !(c == sep)) :: jsSplitAux sep fuel rest

/-- JS `s.split(sep)` (single-character separator). -/
def jsSplit (sep : Char) (s : List Char) : List (List Char) := jsSplitAux sep s.length s

/-- Masking of the local part (`maskEmail` lines 21-26 of both variants):
length at most 2 gives all stars, otherwise first and last characters are
kept and the middle is starred. -/
def maskLocal (l : List Char) : List Char :=
  if l.length ≤ 2 then List.replicate l.length '*'
  else l.take 1 ++ List.replicate (l.length - 2) '*' ++ l.drop (l.length - 1)

/-- `maskEmail` (both variants): split at `"@"`, destructure the first two
parts as `[local, domain]`; a missing or empty (JS-falsy) domain gives the
sentinel `"***"`, otherwise mask the local part and show the domain part. -/
def maskEmail (e : List Char) : List Char :=
  match jsSplit '@' e with
  | [] => "***".data
  | [_loc] => "***".data
  | loc :: domain :: _ =>
    if domain = [] then "***".data
    else maskLocal loc ++ '@' :: domain

lemma length_dropWhile_le' {α : Type} (p : α → Bool) (l : List α) :
    (l.dropWhile p).length ≤ l.length := by
  induction l with
  | nil => simp
  | cons a t ih =>
    by_cases h : p a
    · rw [List.dropWhile_cons_of_pos h]; simp; omega
    · rw [List.dropWhile_cons_of_neg h]

lemma jsSplitAux_irrel (sep : Char) :
    ∀ fuel1 fuel2 s, s.length ≤ fuel1 → s.length ≤ fuel2 →
      jsSplitAux sep fuel1 s = jsSplitAux sep fuel2 s := by
  intro fuel1
  induction fuel1 with
  | zero =>
    intro fuel2 s h1 h2
    have hs : s = [] := List.length_eq_zero.mp (by omega)
    subst hs
    cases fuel2 with
    | zero => rfl
    | succ f2 => simp [jsSplitAux]
  | succ f1 ih =>
    intro fuel2 s h1 h2
    cases fuel2 with
    | zero =>
      have hs : s = [] := List.length_eq_zero.mp (by omega)
      subst hs
      simp [jsSplitAux]
    | succ f2 =>
      simp only [jsSplitAux]
      cases hd : s.dropWhile (fun c => !(c == sep)) with
      | nil => rfl
      | cons b rest =>
        have hlen : rest.length ≤ s.length - 1 := by
          have := length_dropWhile_le' (fun c => !(c == sep)) s
          rw [hd] at this
          simp at this
          omega
        dsimp only
        rw [ih f2 rest (by omega) (by omega)]

lemma splitChar_middle (sep : Char) (l d : List Char) (hl : ∀ c ∈ l, (c == sep) = false) :
    (l ++ sep :: d).takeWhile (fun c => !(c == sep)) = l ∧
      (l ++ sep :: d).dropWhile (fun c => !(c == sep)) = sep :: d := by
  constructor
  · rw [List.takeWhile_append_of_pos (by intro a ha; simp [hl a ha])]
    rw [List.takeWhile_cons_of_neg (by simp)]
    simp
  · rw [List.dropWhile_append_of_pos (by intro a ha; simp [hl a ha])]
    rw [List.dropWhile_cons_of_neg (by simp)]

lemma jsSplit_append (sep : Char) (l d : List Char)
    (hl : ∀ c ∈ l, (c == sep) = false) :
    jsSplit sep (l ++ sep :: d) = l :: jsSplit sep d := by
  obtain ⟨ht, hdw⟩ := splitChar_middle sep l d hl
  have hlen : (l ++ sep :: d).length = l.length + d.length + 1 := by simp; omega
  rw [jsSplit, hlen]
  cases hfuel : l.length + d.length + 1 with
  | zero => omega
  | succ f =>
    simp only [jsSplitAux, hdw, ht]
    rw [jsSplitAux_irrel sep f d.length d (by omega) le_rfl]
    rfl

lemma jsSplit_no_sep (sep : Char) (s : List Char)
    (hs : ∀ c ∈ s, (c == sep) = false) :
    jsSplit sep s = [s] := by
  rw [jsSplit]
  cases hfuel : s.length with
  | zero =>
    have : s = [] := List.length_eq_zero.mp hfuel
    subst this; rfl
  | succ f =>
    simp only [jsSplitAux]
    have hdw : s.dropWhile (fun c => !(c == sep)) = [] := by
      rw [List.dropWhile_eq_nil_iff]
      intro a ha; simp [hs a ha]
    have ht : s.takeWhile (fun c => !(c == sep)) = s := by
      rw [List.takeWhile_eq_self_iff]
      intro a ha; simp [hs a ha]
    rw [hdw, ht]

lemma maskEmail_split (l d : List Char) (hl : ∀ c ∈ l, (c == '@') = false)
    (hd : ∀ c ∈ d, (c == '@') = false) :
    maskEmail (l ++ '@' :: d) =
      (if d = [] then "***".data else maskLocal l ++ '@' :: d) := by
  have h1 : jsSplit '@' (l ++ '@' :: d) = l :: jsSplit '@' d := jsSplit_append '@' l d hl
  have h2 : jsSplit '@' d = [d] := jsSplit_no_sep '@' d hd
  rw [maskEmail, h1, h2]

lemma maskEmail_general (l d : List Char) (hl : ∀ c ∈ l, (c == '@') = false)
    (hd : ∀ c ∈ d, (c == '@') = false) (hne : d ≠ []) :
    maskEmail (l ++ '@' :: d) = maskLocal l ++ '@' :: d := by
  rw [maskEmail_split l d hl hd, if_neg hne]

lemma maskEmail_noat (e : List Char) (he : ∀ c ∈ e, (c == '@') = false) :
    maskEmail e = "***".data := by
  rw [maskEmail, jsSplit_no_sep '@' e he]

lemma maskEmail_empty_domain (l : List Char) (hl : ∀ c ∈ l, (c == '@') = false) :
    maskEmail (l ++ ['@']) = "***".data := by
  have h := maskEmail_split l [] hl (by simp)
  simpa using h

/-- C8 counterexample: for `"ab@x@y"` (an address with an `@`), the code
masks to `"**@x"`: the shown domain is the text between the first and second
`@`, not the full domain `"x@y"` after the first `@`, so "the domain is shown
in full" fails as stated. -/
theorem C8_counterexample :
    maskEmail ("ab@x@y".data) = "**@x".data ∧
      maskEmail ("ab@x@y".data) ≠ maskLocal ("ab".data) ++ '@' :: "x@y".data := by
  decide

/-- C8 (amended): the three concrete maskings hold and any `@`-free input
masks to the sentinel `"***"`; for an address `local@domain` whose domain part
is nonempty and `@`-free, the local part is masked (all stars when its length
is at most 2, otherwise first and last kept and the middle starred — this is
`maskLocal`) and the domain is shown in full.  In addition, an address whose
domain after the first `@` is empty masks to the sentinel (JS falsiness of
`""`), and when several `@` occur only the text up to the second `@` is shown
as the domain. -/
theorem C8_masking :
    maskEmail ("ab@x.com".data) = "**@x.com".data ∧
      maskEmail ("a@x.com".data) = "*@x.com".data ∧
      maskEmail ("alice@example.com".data) = "a***e@example.com".data ∧
      maskEmail ("no-at-sign".data) = "***".data ∧
      (∀ e, (∀ c ∈ e, (c == '@') = false) → maskEmail e = "***".data) ∧
      (∀ l d, (∀ c ∈ l, (c == '@') = false) → (∀ c ∈ d, (c == '@') = false) →
        d ≠ [] → maskEmail (l ++ '@' :: d) = maskLocal l ++ '@' :: d) ∧
      (∀ l, (∀ c ∈ l, (c == '@') = false) → maskEmail (l ++ ['@']) = "***".data) :=
  ⟨by decide, by decide, by decide, by decide,
   maskEmail_noat, maskEmail_general, maskEmail_empty_domain⟩

/-- Witness for C8: the general `local@domain` rule applied concretely. -/
theorem C8_masking_witness :
    maskEmail ("ab".data ++ '@' :: "x.com".data) =
      maskLocal ("ab".data) ++ '@' :: "x.com".data :=
  C8_masking.2.2.2.2.2.1 "ab".data "x.com".data (by decide) (by decide) (by decide)

/-- The JS regex character class `\s` (ECMA-262 WhiteSpace and LineTerminator
code points). -/
def jsWhitespace (c : Char) : Bool :=
  let n := c.toNat
  (n == 32) || (decide (9 ≤ n) && decide (n ≤ 13)) || (n == 0xa0) || (n == 0x1680) ||
    (decide (0x2000 ≤ n) && decide (n ≤ 0x200a)) || (n == 0x2028) || (n == 0x2029) ||
    (n == 0x202f) || (n == 0x205f) || (n == 0x3000) || (n == 0xfeff)

/-- The character class `[^\s@]` of the validation regex. -/
def okChar (c : Char) : Bool := !(jsWhitespace c) && !(c == '@')

/-- Bool test for a `'.'` occurring before the last position of the list. -/
def dotNotLast : List Char → Bool
  | [] => false
  | [_] => false
  | c :: rest => (c == '.') || dotNotLast rest

/-- Bool test for an internal `'.'`: at neither the first nor the last position. -/
def dotInternal : List Char → Bool
  | [] => false
  | _ :: rest => dotNotLast rest

/-- `isValidEmail` of `src/unnamed/part_000` (lines 28-30): full match of
`[^\s@]+@[^\s@]+\.[^\s@]+` anchored at both ends.  Because `[^\s@]` excludes
`@`, a match must split the string at its first non-`okChar` character, which
must be `@`; the domain must consist of `okChar`s and contain a dot with at
least one character of `[^\s@]` on each side, i.e. an internal dot. -/
def isValidEmail (s : List Char) : Bool :=
  match s.dropWhile okChar with
  | '@' :: d => !(s.takeWhile okChar).isEmpty && d.all okChar && dotInternal d
  | _ => false

/-- The validation regex `^[^\s@]+@[^\s@]+\.[^\s@]+$` transcribed literally
as a predicate: some split of the string into a nonempty `[^\s@]` run, `@`, a
nonempty `[^\s@]` run, `.`, and a final nonempty `[^\s@]` run. -/
def matchesEmailRegex (s : List Char) : Prop :=
  ∃ loc mid tail, s = loc ++ '@' :: (mid ++ '.' :: tail) ∧
    loc ≠ [] ∧ mid ≠ [] ∧ tail ≠ [] ∧
    (∀ c ∈ loc, okChar c = true) ∧ (∀ c ∈ mid, okChar c = true) ∧
    (∀ c ∈ tail, okChar c = true)

/-- The claim's characterisation, following the spec's words: a non-whitespace
`@`-free (nonempty) local part, an `@`, and a non-whitespace `@`-free domain
containing a dot (anywhere). -/
def emailShapeSpec (s : List Char) : Prop :=
  ∃ loc dom, s = loc ++ '@' :: dom ∧ loc ≠ [] ∧
    (∀ c ∈ loc, okChar c = true) ∧ (∀ c ∈ dom, okChar c = true) ∧ '.' ∈ dom

/-- The amended characterisation: as `emailShapeSpec`, but the domain's dot
must be internal (nonempty domain text on both sides of some dot). -/
def emailShapeAmended (s : List Char) : Prop :=
  ∃ loc dom, s = loc ++ '@' :: dom ∧ loc ≠ [] ∧
    (∀ c ∈ loc, okChar c = true) ∧ (∀ c ∈ dom, okChar c = true) ∧
    ∃ x y, dom = x ++ '.' :: y ∧ x ≠ [] ∧ y ≠ []

lemma dotNotLast_iff : ∀ l : List Char,
    dotNotLast l = true ↔ ∃ x y, l = x ++ '.' :: y ∧ y ≠ [] := by
  intro l
  induction l with
  | nil =>
    simp only [dotNotLast]
    constructor
    · intro h; exact absurd h (by simp)
    · rintro ⟨x, y, hxy, hy⟩
      exact absurd hxy (by simp)
  | cons c rest ih =>
    cases rest with
    | nil =>
      simp only [dotNotLast]
      constructor
      · intro h; exact absurd h (by simp)
      · rintro ⟨x, y, hxy, hy⟩
        cases x with
        | nil => simp at hxy; exact absurd hxy.2 hy
        | cons a x' =>
          simp only [List.cons_append, List.cons.injEq] at hxy
          exact absurd hxy.2 (by simp)
    | cons b rest' =>
      constructor
      · intro h
        rw [show dotNotLast (c :: b :: rest') = ((c == '.') || dotNotLast (b :: rest'))
          from rfl] at h
        rcases Bool.or_eq_true_iff.mp h with hc | hrec
        · exact ⟨[], b :: rest', by simp [(beq_iff_eq).mp hc], by simp⟩
        · obtain ⟨x, y, hxy, hy⟩ := ih.mp hrec
          exact ⟨c :: x, y, by simp [hxy], hy⟩
      · rintro ⟨x, y, hxy, hy⟩
        rw [show dotNotLast (c :: b :: rest') = ((c == '.') || dotNotLast (b :: rest'))
          from rfl]
        cases x with
        | nil =>
          simp only [List.nil_append, List.cons.injEq] at hxy
          simp [hxy.1]
        | cons a x' =>
          simp only [List.cons_append, List.cons.injEq] at hxy
          have : dotNotLast (b :: rest') = true :=
            ih.mpr ⟨x', y, hxy.2, hy⟩
          simp [this]

lemma dotInternal_iff : ∀ d : List Char,
    dotInternal d = true ↔ ∃ x y, d = x ++ '.' :: y ∧ x ≠ [] ∧ y ≠ [] := by
  intro d
  cases d with
  | nil =>
    simp only [dotInternal]
    constructor
    · intro h; exact absurd h (by simp)
    · rintro ⟨x, y, hxy, hx, hy⟩
      exact absurd hxy (by simp)
  | cons c rest =>
    simp only [dotInternal]
    rw [dotNotLast_iff]
    constructor
    · rintro ⟨x, y, hxy, hy⟩
      exact ⟨c :: x, y, by simp [hxy], by simp, hy⟩
    · rintro ⟨x, y, hxy, hx, hy⟩
      cases x with
      | nil => simp at hx
      | cons a x' =>
        simp only [List.cons_append, List.cons.injEq] at hxy
        exact ⟨x', y, hxy.2, hy⟩

lemma okChar_middle (l d : List Char) (hl : ∀ c ∈ l, okChar c = true) :
    (l ++ '@' :: d).takeWhile okChar = l ∧
      (l ++ '@' :: d).dropWhile okChar = '@' :: d := by
  constructor
  · rw [List.takeWhile_append_of_pos hl, List.takeWhile_cons_of_neg (by decide)]
    simp
  · rw [List.dropWhile_append_of_pos hl, List.dropWhile_cons_of_neg (by decide)]

lemma isValidEmail_iff_amended (s : List Char) :
    isValidEmail s = true ↔ emailShapeAmended s := by
  constructor
  · intro h
    unfold isValidEmail at h
    split at h
    case _ d heq =>
      simp only [Bool.and_eq_true, Bool.not_eq_true'] at h
      obtain ⟨⟨hne, hall⟩, hdot⟩ := h
      have hs : s = s.takeWhile okChar ++ '@' :: d := by
        conv_lhs => rw [← List.takeWhile_append_dropWhile (p := okChar) (l := s)]
        rw [heq]
      refine ⟨s.takeWhile okChar, d, hs, ?_, ?_, ?_, ?_⟩
      · exact List.isEmpty_eq_false.mp hne
      · intro c hc; exact List.mem_takeWhile_imp hc
      · exact List.all_eq_true.mp hall
      · exact (dotInternal_iff d).mp hdot
    case _ => exact absurd h (by simp)
  · rintro ⟨loc, dom, rfl, hloc, hlocall, hdomall, x, y, hdom, hx, hy⟩
    obtain ⟨htake, hdrop⟩ := okChar_middle loc dom hlocall
    unfold isValidEmail
    rw [hdrop]
    simp only [Bool.and_eq_true, Bool.not_eq_true']
    refine ⟨⟨?_, ?_⟩, ?_⟩
    · rw [htake, List.isEmpty_eq_false]
      exact hloc
    · exact List.all_eq_true.mpr hdomall
    · exact (dotInternal_iff dom).mpr ⟨x, y, hdom, hx, hy⟩

/-- C7 counterexample: `"a@b."` satisfies the claimed characterisation (its
domain `"b."` is non-whitespace, `@`-free and contains a dot) but
`isValidEmail` rejects it: the regex requires a character of `[^\s@]` after
the dot. -/
theorem C7_counterexample :
    emailShapeSpec ("a@b.".data) ∧ isValidEmail ("a@b.".data) = false :=
  ⟨⟨"a".data, "b.".data, by decide, by decide, by decide, by decide, by decide⟩,
   by decide⟩

/-- C7 (amended): `isValidEmail` accepts exactly the strings made of a
nonempty non-whitespace `@`-free local part, an `@`, and a non-whitespace
`@`-free domain with an internal dot (nonempty domain text on both sides of
some dot); in particular `"a@b.co"` is accepted and `"no-at-sign"`,
`"@nodomain"`, `"user@nodot"` are rejected. -/
theorem C7_validation_characterization :
    (∀ s, isValidEmail s = true ↔ emailShapeAmended s) ∧
      isValidEmail ("a@b.co".data) = true ∧
      isValidEmail ("no-at-sign".data) = false ∧
      isValidEmail ("@nodomain".data) = false ∧
      isValidEmail ("user@nodot".data) = false :=
  ⟨isValidEmail_iff_amended, by decide, by decide, by decide, by decide⟩

/-- Witness for C7: the characterisation applied at `"a@b.co"`, whose shape
is exhibited concretely. -/
theorem C7_validation_characterization_witness :
    emailShapeAmended ("a@b.co".data) :=
  (C7_validation_characterization.1 ("a@b.co".data)).mp (by decide)

/-- The template placeholder characters (written via code points to keep the
file free of literal braces in strings). -/
def lbrace : Char := Char.ofNat 123

/-- Closing brace character. -/
def rbrace : Char := Char.ofNat 125

/-- The literal marker `[lbrace][lbrace]UNSUBSCRIBE_URL[rbrace][rbrace]` the
template substitution replaces. -/
def marker : List Char := [lbrace, lbrace] ++ "UNSUBSCRIBE_URL".data ++ [rbrace, rbrace]

/-- The backquote character (code point 96), written via its code point. -/
def backquoteChar : Char := Char.ofNat 96

/-- The single-quote character (code point 39), written via its code point. -/
def singleQuoteChar : Char := Char.ofNat 39

/-- ECMA-262 GetSubstitution for a pattern with no capture groups, processing
the replacement string of `String.prototype.replace`: `$$` yields a dollar,
`$&` the matched text, a dollar followed by a backquote the subject text
before the match, a dollar followed by a single quote the subject text after
the match; any other text — including a dollar followed by anything else,
such as `$1` when the pattern has no capture groups — is taken literally. -/
def substAux (matched before after : List Char) : List Char → List Char
  | [] => []
  | c :: rest =>
    if c == '$' then
      match rest with
      | [] => [c]
      | d :: rest' =>
        if d == '$' then d :: substAux matched before after rest'
        else if d == '&' then matched ++ substAux matched before after rest'
        else if d == backquoteChar then before ++ substAux matched before after rest'
        else if d == singleQuoteChar then after ++ substAux matched before after rest'
        else c :: d :: substAux matched before after rest'
    else c :: substAux matched before after rest

/-- JS `template.replace(/marker/g, rep)` for the literal marker: scan left to
right, replace each non-overlapping occurrence by the `$`-substituted
replacement (the replacement output itself is never rescanned for matches).
`pre` accumulates the subject text before the current scan position (for
the dollar-backquote pattern); the text after the current match is the
remaining subject (for the dollar-quote pattern).  Fueled (structurally) by
an upper bound on the length. -/
def replaceAux (rep : List Char) : Nat → List Char → List Char → List Char
  | _, _, [] => []
  | 0, _, s => s
  | fuel + 1, pre, c :: cs =>
    if marker.isPrefixOf (c :: cs) then
      substAux marker pre ((c :: cs).drop marker.length) rep ++
        replaceAux rep fuel (pre ++ marker) ((c :: cs).drop marker.length)
    else
      c :: replaceAux rep fuel (pre ++ [c]) cs

/-- Global replacement of the marker by `rep` (scan starting at position 0). -/
def replaceMarker (rep s : List Char) : List Char := replaceAux rep s.length [] s

/-- One step of `substAux` at a non-dollar head character. -/
lemma substAux_cons_of_ne (matched before after : List Char) (c : Char)
    (rest : List Char) (hc : (c == '$') = false) :
    substAux matched before after (c :: rest) =
      c :: substAux matched before after rest := by
  unfold substAux
  rw [hc]
  simp only [Bool.false_eq_true, if_false]
  rw [substAux.eq_def]

/-- A replacement string containing no dollar character is substituted
verbatim. -/
lemma substAux_no_dollar (matched before after : List Char) :
    ∀ rep, '$' ∉ rep → substAux matched before after rep = rep := by
  intro rep h
  induction rep with
  | nil => rfl
  | cons c rest ih =>
    have hc : (c == '$') = false := by
      simp only [List.mem_cons, not_or] at h
      simp only [beq_eq_false_iff_ne]
      exact fun hcc => h.1 hcc.symm
    have hrest : '$' ∉ rest := by
      simp only [List.mem_cons, not_or] at h
      exact h.2
    rw [substAux_cons_of_ne matched before after c rest hc, ih hrest]

lemma infix_append_split {α : Type} {t l₁ l₂ : List α} (h : t <:+: l₁ ++ l₂) :
    t <:+: l₁ ∨ t <:+: l₂ ∨
      ∃ t₁ t₂, t = t₁ ++ t₂ ∧ t₁ ≠ [] ∧ t₁ <:+ l₁ ∧ t₂ <+: l₂ := by
  obtain ⟨u, v, huv⟩ := h
  rw [List.append_assoc] at huv
  rcases List.append_eq_append_iff.mp huv with ⟨w, hw1, hw2⟩ | ⟨w, hw1, hw2⟩
  · rcases List.append_eq_append_iff.mp hw2 with ⟨x, hx1, hx2⟩ | ⟨x, hx1, hx2⟩
    · left
      refine ⟨u, x, ?_⟩
      rw [List.append_assoc, ← hx1, ← hw1]
    · rcases eq_or_ne w [] with hw | hw
      · right; left
        subst hw
        simp only [List.nil_append] at hx1
        refine ⟨[], v, ?_⟩
        rw [List.nil_append, hx1]
        exact hx2.symm
      · rcases eq_or_ne x [] with hx | hx
        · left
          subst hx
          rw [List.append_nil] at hx1
          refine ⟨u, [], ?_⟩
          rw [List.append_nil, hx1]
          exact hw1.symm
        · right; right
          exact ⟨w, x, hx1, hw, ⟨u, hw1.symm⟩, ⟨v, hx2.symm⟩⟩
  · right; left
    refine ⟨w, v, ?_⟩
    rw [List.append_assoc, ← hw2]

lemma replaceAux_nil (rep : List Char) (fuel : Nat) (pre : List Char) :
    replaceAux rep fuel pre [] = [] := by
  cases fuel <;> rfl

lemma rbrace_mem_drop : ∀ k, k < marker.length → 0 < k → rbrace ∈ marker.drop k := by
  decide

lemma mem_of_prefix_marker (m1 : List Char) (h : m1 <+: marker) (hne : m1 ≠ []) :
    lbrace ∈ m1 := by
  cases m1 with
  | nil => exact absurd rfl hne
  | cons c t =>
    obtain ⟨t2, ht⟩ := h
    have hc : some c = some lbrace := by
      have h1 : ((c :: t) ++ t2).head? = some c := rfl
      rw [ht] at h1
      rw [← h1]
      decide
    rw [Option.some.injEq] at hc
    rw [hc]
    exact List.mem_cons_self lbrace t

lemma replaceAux_no_marker (rep : List Char) (h1 : lbrace ∉ rep) (h2 : rbrace ∉ rep)
    (h3 : '/' ∈ rep) (h4 : '$' ∉ rep) :
    ∀ fuel pre s, s.length ≤ fuel →
      (¬ marker <:+: replaceAux rep fuel pre s) ∧
      (∀ k, 0 < k → k < marker.length →
        marker.drop k <+: replaceAux rep fuel pre s → marker.drop k <+: s) := by
  intro fuel
  induction fuel with
  | zero =>
    intro pre s hs
    have hnil : s = [] := List.length_eq_zero.mp (by omega)
    subst hnil
    rw [replaceAux_nil]
    constructor
    · decide
    · intro k hk0 hk1 hp
      rw [List.prefix_nil, List.drop_eq_nil_iff] at hp
      omega
  | succ f ih =>
    intro pre s hs
    cases s with
    | nil =>
      rw [replaceAux_nil]
      constructor
      · decide
      · intro k hk0 hk1 hp
        rw [List.prefix_nil, List.drop_eq_nil_iff] at hp
        omega
    | cons c cs =>
      by_cases hpre : marker.isPrefixOf (c :: cs)
      · have hrw : replaceAux rep (f + 1) pre (c :: cs) =
            rep ++ replaceAux rep f (pre ++ marker) ((c :: cs).drop marker.length) := by
          simp only [replaceAux, hpre, if_true]
          rw [substAux_no_dollar marker pre ((c :: cs).drop marker.length) rep h4]
        have hmlen : marker.length = 19 := by decide
        have hlen : ((c :: cs).drop marker.length).length ≤ f := by
          simp only [List.length_drop, List.length_cons] at hs ⊢
          omega
        obtain ⟨ihP, ihQ⟩ := ih (pre ++ marker) _ hlen
        constructor
        · intro hin
          rw [hrw] at hin
          rcases infix_append_split hin with hA | hB | ⟨t₁, t₂, hsplit, ht1ne, ht1, ht2⟩
          · exact h1 (hA.subset (by decide : lbrace ∈ marker))
          · exact ihP hB
          · have hmem : lbrace ∈ t₁ := mem_of_prefix_marker t₁ ⟨t₂, hsplit.symm⟩ ht1ne
            exact h1 (ht1.subset hmem)
        · intro k hk0 hk1 hp
          rw [hrw] at hp
          rcases List.prefix_or_prefix_of_prefix hp
              (List.prefix_append rep
                (replaceAux rep f (pre ++ marker) ((c :: cs).drop marker.length)))
            with hd | hd
          · have hrb : rbrace ∈ marker.drop k := rbrace_mem_drop k hk1 hk0
            exact absurd (hd.subset hrb) h2
          · have hsl : '/' ∈ marker := (List.drop_suffix k marker).subset (hd.subset h3)
            exact absurd hsl (by decide)
      · have hrw : replaceAux rep (f + 1) pre (c :: cs) =
            c :: replaceAux rep f (pre ++ [c]) cs := by
          simp only [replaceAux, hpre, Bool.false_eq_true, if_false]
        have hlen : cs.length ≤ f := by
          simp only [List.length_cons] at hs
          omega
        obtain ⟨ihP, ihQ⟩ := ih (pre ++ [c]) _ hlen
        constructor
        · intro hin
          rw [hrw] at hin
          rcases List.infix_cons_iff.mp hin with hpref | hinf
          · have h0 : (0 : Nat) < marker.length := by decide
            have hme : marker = marker[0] :: marker.drop 1 := by
              conv_lhs => rw [← List.drop_zero marker]
              exact List.drop_eq_getElem_cons h0
            rw [hme] at hpref
            obtain ⟨hc, htail⟩ := List.cons_prefix_cons.mp hpref
            have hcs : marker.drop 1 <+: cs := ihQ 1 (by omega) (by decide) htail
            have hfull : marker <+: c :: cs := by
              rw [hme, ← hc]
              exact List.cons_prefix_cons.mpr ⟨rfl, hcs⟩
            rw [← List.isPrefixOf_iff_prefix] at hfull
            exact hpre hfull
          · exact ihP hinf
        · intro k hk0 hk1 hp
          rw [hrw] at hp
          have hme : marker.drop k = marker[k] :: marker.drop (k + 1) :=
            List.drop_eq_getElem_cons hk1
          rw [hme] at hp
          obtain ⟨hc, htail⟩ := List.cons_prefix_cons.mp hp
          by_cases hk2 : k + 1 < marker.length
          · have hcs : marker.drop (k + 1) <+: cs := ihQ (k + 1) (by omega) hk2 htail
            rw [hme, ← hc]
            exact List.cons_prefix_cons.mpr ⟨rfl, hcs⟩
          · have hk19 : k + 1 = marker.length := by omega
            rw [hme, ← hc]
            refine List.cons_prefix_cons.mpr ⟨rfl, ?_⟩
            rw [hk19, List.drop_length]
            exact List.nil_prefix

/-- Upper bound on a character's code point. -/
lemma char_toNat_lt (c : Char) : c.toNat < 1114112 := by
  rcases c.valid with h | ⟨_, h2⟩
  · exact Nat.lt_trans h (by norm_num)
  · exact h2

/-- The UTF-8 encoding of one code point, as byte values. -/
def utf8Bytes (c : Char) : List Nat :=
  let n := c.toNat
  if n < 128 then [n]
  else if n < 2048 then [192 + n / 64, 128 + n % 64]
  else if n < 65536 then [224 + n / 4096, 128 + (n / 64) % 64, 128 + n % 64]
  else [240 + n / 262144, 128 + (n / 4096) % 64, 128 + (n / 64) % 64, 128 + n % 64]

/-- Upper-case hexadecimal digit (only used with `n < 16`). -/
def hexDig (n : Nat) : Char := if n < 10 then Char.ofNat (48 + n) else Char.ofNat (55 + n)

/-- The characters `encodeURIComponent` leaves unescaped (ECMA-262):
letters, digits, and `- _ . ! ~ * ' ( )`. -/
def isUnreservedURI (c : Char) : Bool :=
  let n := c.toNat
  (decide (65 ≤ n) && decide (n ≤ 90)) || (decide (97 ≤ n) && decide (n ≤ 122)) ||
    (decide (48 ≤ n) && decide (n ≤ 57)) || (n == 45) || (n == 95) || (n == 46) ||
    (n == 33) || (n == 126) || (n == 42) || (n == 39) || (n == 40) || (n == 41)

/-- Percent-encode a byte sequence: `%HH` with upper-case hex. -/
def percentEncode : List Nat → List Char
  | [] => []
  | b :: bs => '%' :: hexDig (b / 16) :: hexDig (b % 16) :: percentEncode bs

/-- JS `encodeURIComponent`: unreserved characters pass through, everything
else is percent-encoded as its UTF-8 bytes. -/
def encodeURIComponent : List Char → List Char
  | [] => []
  | c :: cs =>
    (if isUnreservedURI c then [c] else percentEncode (utf8Bytes c)) ++
      encodeURIComponent cs

lemma utf8Bytes_lt (c : Char) : ∀ b ∈ utf8Bytes c, b < 256 := by
  intro b hb
  have hc := char_toNat_lt c
  by_cases h1 : c.toNat < 128
  · simp only [utf8Bytes, if_pos h1] at hb
    simp at hb; omega
  · by_cases h2 : c.toNat < 2048
    · simp only [utf8Bytes, if_neg h1, if_pos h2] at hb
      have hd : c.toNat / 64 < 64 := (Nat.div_lt_iff_lt_mul (by norm_num)).mpr (by omega)
      have hm : c.toNat % 64 < 64 := Nat.mod_lt _ (by norm_num)
      simp at hb
      rcases hb with hb | hb <;> omega
    · by_cases h3 : c.toNat < 65536
      · simp only [utf8Bytes, if_neg h1, if_neg h2, if_pos h3] at hb
        have hd : c.toNat / 4096 < 16 :=
          (Nat.div_lt_iff_lt_mul (by norm_num)).mpr (by omega)
        have hm1 : (c.toNat / 64) % 64 < 64 := Nat.mod_lt _ (by norm_num)
        have hm2 : c.toNat % 64 < 64 := Nat.mod_lt _ (by norm_num)
        simp at hb
        rcases hb with hb | hb | hb <;> omega
      · simp only [utf8Bytes, if_neg h1, if_neg h2, if_neg h3] at hb
        have hd : c.toNat / 262144 < 5 :=
          (Nat.div_lt_iff_lt_mul (by norm_num)).mpr (by omega)
        have hm1 : (c.toNat / 4096) % 64 < 64 := Nat.mod_lt _ (by norm_num)
        have hm2 : (c.toNat / 64) % 64 < 64 := Nat.mod_lt _ (by norm_num)
        have hm3 : c.toNat % 64 < 64 := Nat.mod_lt _ (by norm_num)
        simp at hb
        rcases hb with hb | hb | hb | hb <;> omega

lemma hexDig_not_brace : ∀ n, n < 16 →
    hexDig n ≠ lbrace ∧ hexDig n ≠ rbrace ∧ hexDig n ≠ '$' := by
  decide

lemma percentEncode_not_brace (bs : List Nat) (hbs : ∀ b ∈ bs, b < 256) :
    ∀ x ∈ percentEncode bs, x ≠ lbrace ∧ x ≠ rbrace ∧ x ≠ '$' := by
  induction bs with
  | nil => intro x hx; exact absurd hx (by simp [percentEncode])
  | cons b rest ih =>
    intro x hx
    have hb : b < 256 := hbs b (List.mem_cons_self b rest)
    simp only [percentEncode, List.mem_cons] at hx
    rcases hx with hx | hx | hx | hx
    · subst hx; decide
    · subst hx
      exact hexDig_not_brace (b / 16) ((Nat.div_lt_iff_lt_mul (by norm_num)).mpr (by omega))
    · subst hx
      exact hexDig_not_brace (b % 16) (Nat.mod_lt _ (by norm_num))
    · exact ih (fun y hy => hbs y (List.mem_cons_of_mem b hy)) x hx

lemma encodeURIComponent_not_brace (s : List Char) :
    ∀ x ∈ encodeURIComponent s, x ≠ lbrace ∧ x ≠ rbrace ∧ x ≠ '$' := by
  induction s with
  | nil => intro x hx; exact absurd hx (by simp [encodeURIComponent])
  | cons c cs ih =>
    intro x hx
    simp only [encodeURIComponent, List.mem_append] at hx
    rcases hx with hx | hx
    · by_cases hu : isUnreservedURI c
      · rw [if_pos hu] at hx
        simp only [List.mem_singleton] at hx
        subst hx
        refine ⟨?_, ?_, ?_⟩ <;>
        · intro hc; rw [hc] at hu; exact absurd hu (by decide)
      · rw [if_neg hu] at hx
        exact percentEncode_not_brace (utf8Bytes c) (utf8Bytes_lt c) x hx
    · exact ih x hx

/-- The unsubscribe URL:
`workerUrl + "/unsubscribe?email=" + encodeURIComponent(email) + "&token=" + token`. -/
def unsubUrl (workerUrl email token : List Char) : List Char :=
  workerUrl ++ "/unsubscribe?email=".data ++ encodeURIComponent email ++
    "&token=".data ++ token

/-- `buildEmailPayload(sub, workerUrl)` of `src/unnamed/part_000` (lines
114-124).  The script's closure variables (template, secret, FROM, SUBJECT)
are explicit parameters; `tok` abstracts `hmacToken` (the `crypto` module is
an external collaborator — in the real program it returns a hex digest). -/
def buildEmailPayload (tok : String → String → String)
    (workerSecret emailTemplate fromStr subjectStr : String)
    (sub : Subscriber) (workerUrl : String) : EmailMessage :=
  ⟨fromStr, sub.email, subjectStr,
   ⟨replaceMarker
      (unsubUrl workerUrl.data sub.email.data (tok sub.email workerSecret).data)
      emailTemplate.data⟩⟩

lemma unsubUrl_no_special (workerUrl email token : List Char)
    (hb1 : lbrace ∉ workerUrl) (hb2 : rbrace ∉ workerUrl) (hb3 : '$' ∉ workerUrl)
    (ht1 : lbrace ∉ token) (ht2 : rbrace ∉ token) (ht3 : '$' ∉ token) :
    lbrace ∉ unsubUrl workerUrl email token ∧
      rbrace ∉ unsubUrl workerUrl email token ∧
      '$' ∉ unsubUrl workerUrl email token := by
  refine ⟨?_, ?_, ?_⟩ <;>
  · intro hmem
    simp only [unsubUrl, List.mem_append] at hmem
    rcases hmem with ((((h | h) | h) | h) | h)
    · first | exact hb1 h | exact hb2 h | exact hb3 h
    · revert h; decide
    · have := encodeURIComponent_not_brace email _ h
      simp at this
    · revert h; decide
    · first | exact ht1 h | exact ht2 h | exact ht3 h

lemma slash_mem_unsubUrl (workerUrl email token : List Char) :
    '/' ∈ unsubUrl workerUrl email token := by
  simp only [unsubUrl, List.mem_append]
  left; left; left; right
  decide

/-- C6 counterexample: the claim's "for every ... base URL" fails two ways.
With a base URL that itself contains the marker (template equal to the
marker), the substituted URL — spliced in without being rescanned for
matches — carries the marker into the rendered HTML; and with the brace-free
base URL `"$&"`, the `$&` substitution pattern of `String.prototype.replace`
re-inserts the matched marker itself. -/
theorem C6_counterexample :
    marker <:+:
      (buildEmailPayload (fun _ _ => "t") "s" (⟨marker⟩ : String) "f" "subj"
        ⟨"a@b.co"⟩ (⟨marker⟩ : String)).html.data ∧
    marker <:+:
      (buildEmailPayload (fun _ _ => "t") "s" (⟨marker⟩ : String) "f" "subj"
        ⟨"a@b.co"⟩ "$&").html.data := by
  constructor <;> decide

/-- C6 (amended): provided the base URL and the token contain no brace and no
dollar characters (the token is a hex digest in the real program, so only the
base URL conditions are a genuine restriction), the marker does not appear
anywhere in the rendered HTML — every occurrence, not only the first, is
replaced — and the substituted unsubscribe URL contains the URL-encoded
recipient email address. -/
theorem C6_substitution_total (tok : String → String → String)
    (workerSecret emailTemplate fromStr subjectStr : String)
    (sub : Subscriber) (workerUrl : String)
    (hb1 : lbrace ∉ workerUrl.data) (hb2 : rbrace ∉ workerUrl.data)
    (hb3 : '$' ∉ workerUrl.data)
    (ht1 : lbrace ∉ (tok sub.email workerSecret).data)
    (ht2 : rbrace ∉ (tok sub.email workerSecret).data)
    (ht3 : '$' ∉ (tok sub.email workerSecret).data) :
    ¬ marker <:+:
        (buildEmailPayload tok workerSecret emailTemplate fromStr subjectStr
          sub workerUrl).html.data ∧
      encodeURIComponent sub.email.data <:+:
        unsubUrl workerUrl.data sub.email.data (tok sub.email workerSecret).data := by
  obtain ⟨hu1, hu2, hu3⟩ := unsubUrl_no_special workerUrl.data sub.email.data
    (tok sub.email workerSecret).data hb1 hb2 hb3 ht1 ht2 ht3
  constructor
  · show ¬ marker <:+: replaceMarker
      (unsubUrl workerUrl.data sub.email.data (tok sub.email workerSecret).data)
      emailTemplate.data
    exact (replaceAux_no_marker _ hu1 hu2 (slash_mem_unsubUrl _ _ _) hu3
      emailTemplate.data.length [] emailTemplate.data le_rfl).1
  · exact ⟨workerUrl.data ++ "/unsubscribe?email=".data,
      "&token=".data ++ (tok sub.email workerSecret).data, by
        simp [unsubUrl]⟩

/-- Witness for C6: the amended theorem at a concrete brace- and dollar-free
base URL and token. -/
theorem C6_substitution_total_witness :
    ¬ marker <:+:
        (buildEmailPayload (fun _ _ => "ab12") "s" ⟨marker⟩ "f" "subj"
          ⟨"a@b.co"⟩ "https:~~w.example").html.data ∧
      encodeURIComponent ("a@b.co".data) <:+:
        unsubUrl ("https:~~w.example".data) ("a@b.co".data) ("ab12".data) :=
  C6_substitution_total (fun _ _ => "ab12") "s" ⟨marker⟩ "f" "subj" ⟨"a@b.co"⟩
    "https:~~w.example" (by decide) (by decide) (by decide) (by decide) (by decide)
    (by decide)

/-- JS truthiness of an environment variable: set and non-empty. -/
def present (o : Option String) : Bool :=
  match o with
  | none => false
  | some s => !(s == "")

/-- `WORKER_URL.replace(/\/$/, "")`: strip one trailing slash. -/
def stripTrailingSlash (s : List Char) : List Char :=
  if s.getLast? = some '/' then s.dropLast else s

/-- The default sender (`RESEND_FROM` falsy). -/
def defaultFrom : String := "YOMOO 每日AI快送 <daily@yomoo.net>"

/-- `FROM = RESEND_FROM || default`. -/
def mainFrom (resendFrom : Option String) : String :=
  match resendFrom with
  | some s => if s == "" then defaultFrom else s
  | none => defaultFrom

/-- `SUBJECT = "YOMOO 每日AI快送 — " + EPISODE_DATE`. -/
def mainSubject (episodeDate : Option String) : String :=
  "YOMOO 每日AI快送 — " ++ episodeDate.getD ""

/-- The messages `main` builds: one payload per valid subscriber, in order. -/
def mainMsgs (tok : String → String → String)
    (workerUrl workerSecret resendFrom episodeDate : Option String)
    (tmpl : String) (subs : List Subscriber) : List EmailMessage :=
  (subs.filter (fun s => isValidEmail s.email.data)).map (fun sub =>
    buildEmailPayload tok (workerSecret.getD "") tmpl (mainFrom resendFrom)
      (mainSubject episodeDate) sub ⟨stripTrailingSlash (workerUrl.getD "").data⟩)

/-- The end-to-end run of `src/unnamed/part_000`, as its process exit code:
missing/empty required configuration → skip with 0 (lines 9-12); template
missing → 1 (lines 15-18); directory response not exactly 200 → 1 (lines
135-138); no valid subscriber after filtering → normal return, 0 (lines
150-153); otherwise deliver and exit 1 iff `failed > 0` (lines 195-196). -/
def mainModel (tok : String → String → String)
    (apiKey workerUrl workerSecret resendFrom episodeDate : Option String)
    (emailTemplate : Option String) (subsStatus : Nat) (subs : List Subscriber)
    (env : Nat → HttpResp) : Nat :=
  if !(present apiKey) || !(present workerUrl) || !(present workerSecret) ||
      !(present episodeDate) then 0
  else
    match emailTemplate with
    | none => 1
    | some tmpl =>
      if subsStatus ≠ 200 then 1
      else
        if subs.filter (fun s => isValidEmail s.email.data) = [] then 0
        else
          let r := deliver env
            (mainMsgs tok workerUrl workerSecret resendFrom episodeDate tmpl subs) ⟨0, []⟩
          if 0 < r.2.1 then 1 else 0

/-- C5: a run skipped for missing configuration exits 0; a run that reaches
the delivery phase (configuration present, template found, directory answered
200, at least one valid subscriber) exits non-zero iff the final failed count
is positive; and a run with zero valid subscribers after filtering exits 0. -/
theorem C5_exit_status :
    (∀ tok apiKey workerUrl workerSecret resendFrom episodeDate emailTemplate
        subsStatus subs env,
      (!(present apiKey) || !(present workerUrl) || !(present workerSecret) ||
        !(present episodeDate)) = true →
      mainModel tok apiKey workerUrl workerSecret resendFrom episodeDate
        emailTemplate subsStatus subs env = 0) ∧
    (∀ tok apiKey workerUrl workerSecret resendFrom episodeDate tmpl subs env,
      (!(present apiKey) || !(present workerUrl) || !(present workerSecret) ||
        !(present episodeDate)) = false →
      subs.filter (fun s => isValidEmail s.email.data) ≠ [] →
      (mainModel tok apiKey workerUrl workerSecret resendFrom episodeDate
          (some tmpl) 200 subs env ≠ 0 ↔
        0 < (deliver env
          (mainMsgs tok workerUrl workerSecret resendFrom episodeDate tmpl subs)
          ⟨0, []⟩).2.1)) ∧
    (∀ tok apiKey workerUrl workerSecret resendFrom episodeDate tmpl subs env,
      (!(present apiKey) || !(present workerUrl) || !(present workerSecret) ||
        !(present episodeDate)) = false →
      subs.filter (fun s => isValidEmail s.email.data) = [] →
      mainModel tok apiKey workerUrl workerSecret resendFrom episodeDate
        (some tmpl) 200 subs env = 0) := by
  refine ⟨?_, ?_, ?_⟩
  · intro tok apiKey workerUrl workerSecret resendFrom episodeDate emailTemplate
      subsStatus subs env h
    simp only [mainModel, h, if_true]
  · intro tok apiKey workerUrl workerSecret resendFrom episodeDate tmpl subs env
      hcfg hvalid
    simp only [mainModel, hcfg, Bool.false_eq_true, if_false, ne_eq, if_neg hvalid]
    norm_num
    by_cases hf : 0 < (deliver env
        (mainMsgs tok workerUrl workerSecret resendFrom episodeDate tmpl subs)
        ⟨0, []⟩).2.1
    · simp [hf]; omega
    · simp [hf]; omega
  · intro tok apiKey workerUrl workerSecret resendFrom episodeDate tmpl subs env
      hcfg hvalid
    simp only [mainModel, hcfg, Bool.false_eq_true, if_false, ne_eq, hvalid, if_true]
    norm_num

/-- Witness for C5: the delivery-phase equivalence at a concrete run (one
valid subscriber, provider always answering 200). -/
theorem C5_exit_status_witness :
    mainModel (fun _ _ => "t") (some "k") (some "u") (some "s") none (some "d")
        (some "tpl") 200 [⟨"a@b.co"⟩] (fun _ => ⟨200, "ok"⟩) ≠ 0 ↔
      0 < (deliver (fun _ => ⟨200, "ok"⟩)
        (mainMsgs (fun _ _ => "t") (some "u") (some "s") none (some "d") "tpl"
          [⟨"a@b.co"⟩]) ⟨0, []⟩).2.1 :=
  C5_exit_status.2.1 (fun _ _ => "t") (some "k") (some "u") (some "s") none
    (some "d") "tpl" [⟨"a@b.co"⟩] (fun _ => ⟨200, "ok"⟩) (by decide) (by decide)

/-- Bridge: the executable `isValidEmail` agrees with the literal transcription
of the regex `^[^\s@]+@[^\s@]+\.[^\s@]+$` as an existence of a split. -/
lemma isValidEmail_iff_regex (s : List Char) :
    isValidEmail s = true ↔ matchesEmailRegex s := by
  rw [isValidEmail_iff_amended]
  constructor
  · rintro ⟨loc, dom, hs, hloc, hlocall, hdomall, x, y, hdom, hx, hy⟩
    refine ⟨loc, x, y, ?_, hloc, hx, hy, hlocall, ?_, ?_⟩
    · rw [hs, hdom]
    · intro c hc
      exact hdomall c (by rw [hdom]; exact List.mem_append_left _ hc)
    · intro c hc
      exact hdomall c (by rw [hdom]; exact List.mem_append_right _ (List.mem_cons_of_mem _ hc))
  · rintro ⟨loc, mid, tail, hs, hloc, hmid, htail, hlocall, hmidall, htailall⟩
    refine ⟨loc, mid ++ '.' :: tail, hs, hloc, hlocall, ?_, mid, tail, rfl, hmid, htail⟩
    intro c hc
    rcases List.mem_append.mp hc with hc | hc
    · exact hmidall c hc
    · rcases List.mem_cons.mp hc with hc | hc
      · rw [hc]; decide
      · exact htailall c hc
